import Mathlib

/-!
Shallow embedding of the process-injection core of
`renderdoc/os/win32/win32_process.cpp`: the deferred environment-modification
applier, the capture-options hex encoding, the remote-module locator with its
snapshot retry policy, the delegated 32-bit helper command-line construction,
and the exported capture-library boot entry points.

Strings are modelled by Lean `String`/`List Char`; the live Windows
environment block is a list of `(name, value)` pairs whose names the OS
matches case-insensitively.
-/

set_option autoImplicit false

/-- Character-wise lowering, modelling `lowercase` / `strlower` (`towlower`
per character, used here on ASCII module and variable names). -/
def strlower (s : String) : String :=
  ⟨s.data.map Char.toLower⟩

/-- The environment-modification kind, `Process::ModificationType`
(`eEnvModification_*` enumerators from `os_specific.h`). -/
inductive ModificationType where
  | eEnvModification_Replace
  | eEnvModification_Append
  | eEnvModification_AppendColon
  | eEnvModification_AppendSemiColon
  | eEnvModification_AppendPlatform
  | eEnvModification_Prepend
  | eEnvModification_PrependColon
  | eEnvModification_PrependSemiColon
  | eEnvModification_PrependPlatform
deriving DecidableEq, Repr

/-- Record `Process::EnvironmentModification`: a pending environment edit. -/
structure EnvironmentModification where
  name : String
  value : String
  type : ModificationType
deriving DecidableEq, Repr

/-- Insert with overwrite into an association list: the model of
`std::map::operator[]` assignment used by `EnvStringToEnvMap`. -/
def mapInsert (k v : String) : List (String × String) → List (String × String)
  | [] => [(k, v)]
  | (k', v') :: rest =>
    if k' = k then (k, v) :: rest else (k', v') :: mapInsert k v rest

/-- Lookup in an association list: the model of `std::map::find`. -/
def mapFind (k : String) : List (String × String) → Option String
  | [] => none
  | (k', v') :: rest => if k' = k then some v' else mapFind k rest

/-- Function `EnvStringToEnvMap`: turn the live environment block into a map keyed by
lowercased names, so lookups are case-insensitive (lines 53-79). -/
def EnvStringToEnvMap (envBlock : List (String × String)) : List (String × String) :=
  envBlock.foldl (fun m nv => mapInsert (strlower nv.1) nv.2 m) []

/-- Model of the Win32 `SetEnvironmentVariableW` call: variable names are
matched case-insensitively; an existing variable keeps its stored casing and
gets the new value, otherwise a new variable is appended under the given
name. -/
def SetEnvironmentVariableW (name value : String) :
    List (String × String) → List (String × String)
  | [] => [(name, value)]
  | (n, v) :: rest =>
    if strlower n = strlower name then (n, value) :: rest
    else (n, v) :: SetEnvironmentVariableW name value rest

/-- The `switch(m.type)` of `Process::ApplyEnvironmentModification`
(lines 117-147): compute the new value from the existing `value` and the
edit's `m.value`. The `Append*` cases first append the separator to a
non-empty `value` and then append the edit value, mirroring the two `+=`
statements; the `Prepend*` cases mirror the `if/else` assignments. -/
def applyEditValue (type : ModificationType) (value mvalue : String) : String :=
  match type with
  | .eEnvModification_Replace => mvalue
  | .eEnvModification_Append => value ++ mvalue
  | .eEnvModification_AppendColon =>
      (if value.isEmpty then value else value ++ ":") ++ mvalue
  | .eEnvModification_AppendPlatform | .eEnvModification_AppendSemiColon =>
      (if value.isEmpty then value else value ++ ";") ++ mvalue
  | .eEnvModification_Prepend => mvalue ++ value
  | .eEnvModification_PrependColon =>
      if value.isEmpty then mvalue else mvalue ++ ":" ++ value
  | .eEnvModification_PrependPlatform | .eEnvModification_PrependSemiColon =>
      if value.isEmpty then mvalue else mvalue ++ ";" ++ value

/-- One iteration of the loop in `Process::ApplyEnvironmentModification`
(lines 99-150): look the edit's lowercased name up in the map built before
the loop; on a hit start from the existing value and adopt the lowercased
name, otherwise start from the empty string and keep the edit's casing;
compute the new value and commit it with `SetEnvironmentVariableW`. -/
def applyOneModification (currentEnv : List (String × String))
    (live : List (String × String)) (m : EnvironmentModification) :
    List (String × String) :=
  let lowername := strlower m.name
  match mapFind lowername currentEnv with
  | some v => SetEnvironmentVariableW lowername (applyEditValue m.type v m.value) live
  | none => SetEnvironmentVariableW m.name (applyEditValue m.type "" m.value) live

/-- The state `Process::ApplyEnvironmentModification` acts on: the live
environment block and the pending list returned by `GetEnvModifications`. -/
structure ProcessEnvState where
  liveEnv : List (String × String)
  modifications : List EnvironmentModification
deriving DecidableEq, Repr

/-- Function `Process::ApplyEnvironmentModification` (lines 91-154): snapshot the live
environment into a lowercase-keyed map once, process every pending edit
against that stale snapshot in order, then clear the pending list. -/
def ApplyEnvironmentModification (st : ProcessEnvState) : ProcessEnvState :=
  let currentEnv := EnvStringToEnvMap st.liveEnv
  { liveEnv := st.modifications.foldl (applyOneModification currentEnv) st.liveEnv
    modifications := [] }

/-- The two character pushes per byte of the capture-options serialisation in
`Process::InjectIntoProcess` (lines 550-554) and `Process::StartGlobalHook`:
high nibble then low nibble, each emitted as the character `'a' + n`. -/
def byteEncodeChars (b : Nat) : List Char :=
  [Char.ofNat ('a'.toNat + ((b >>> 4) &&& 0xf)),
   Char.ofNat ('a'.toNat + (b &&& 0xf))]

/-- The `optstr` serialisation loop over the bytes of the `CaptureOptions`
blob (lines 546-555): successive `push_back` of the two nibble characters. -/
def captureOptionsEncode (blob : List Nat) : List Char :=
  blob.foldl (fun optstr b => optstr ++ byteEncodeChars b) []

/-- Modelled from the spec: the decoder lives in the 32-bit helper's
command-line parser (`renderdoccmd`, not under `src/`); per the spec the
encoding is "two ASCII characters per byte, high nibble then low nibble, each
nibble as `'a' + n`", so the decoder reads successive character pairs. -/
def captureOptionsDecode : List Char → List Nat
  | c1 :: c2 :: rest =>
      ((c1.toNat - 'a'.toNat) * 16 + (c2.toNat - 'a'.toNat)) :: captureOptionsDecode rest
  | _ => []

/-- One `MODULEENTRY32` of the module snapshot: the module's short name
`szModule` and its base load address `modBaseAddr`. -/
structure ModuleEntry where
  szModule : String
  modBaseAddr : Nat
deriving DecidableEq, Repr

/-- Executable substring test on character lists, modelling `wcsstr`
(non-null result iff the needle occurs in the haystack). -/
def containsSub (hay needle : List Char) : Bool :=
  match hay with
  | [] => needle.isEmpty
  | _ :: rest => needle.isPrefixOf hay || containsSub rest needle

/-- The `do { ... } while(ret == 0 && Module32Next(...))` scan of
`FindRemoteDLL` (lines 289-308): lowercase each module name, record the base
address on a substring hit, and keep walking while `ret` is still zero.
`libName` is already lowercased by the caller. -/
def moduleScan (libName : String) : List ModuleEntry → Nat
  | [] => 0
  | me :: rest =>
    let ret := if containsSub (strlower me.szModule).data libName.data
               then me.modBaseAddr else 0
    if ret = 0 then moduleScan libName rest else ret

/-- The Win32 error code `ERROR_BAD_LENGTH`, the only transient error the
snapshot loop retries on. -/
def ERROR_BAD_LENGTH : Nat := 24

/-- One `CreateToolhelp32Snapshot` attempt either fails with a Win32 error
code or yields the module list (`Module32First`/`Module32Next` walk). -/
def SnapshotAttempt : Type := Nat → Except Nat (List ModuleEntry)

/-- The `for(int i = 0; i < 10; i++)` retry loop of `FindRemoteDLL`
(lines 244-262): attempt the snapshot; on `ERROR_BAD_LENGTH` with retries
left, try again immediately, otherwise stop with the last outcome. Returns
the final outcome paired with the number of attempts made. Called with
`retriesLeft = 9`, so at most ten attempts happen. -/
def snapshotRetry (attempt : SnapshotAttempt) :
    Nat → Nat → Except Nat (List ModuleEntry) × Nat
  | i, retriesLeft =>
    match attempt i with
    | .error err =>
      match retriesLeft with
      | r + 1 =>
        if err = ERROR_BAD_LENGTH then snapshotRetry attempt (i + 1) r
        else (.error err, i + 1)
      | 0 => (.error err, i + 1)
    | .ok modules => (.ok modules, i + 1)

/-- Function `FindRemoteDLL` (lines 238-338): lowercase the query, acquire the module
snapshot with the retry policy, return 0 when the snapshot is unavailable,
otherwise scan the module list for a case-insensitive substring match. -/
def FindRemoteDLL (attempt : SnapshotAttempt) (libName : String) : Nat :=
  let libName := strlower libName
  match (snapshotRetry attempt 0 9).1 with
  | .error _ => 0
  | .ok modules => moduleScan libName modules

/-- The in-place quote-escaping loop of the delegated branch (lines 601-611):
walk the string by index; at an embedded double quote insert a backslash
before it and jump past the quote (`it = s.insert(it, back) + 1` then `++it`). -/
def escapeLoop (s : List Char) (i : Nat) : List Char :=
  if h : i < s.length then
    if s.get ⟨i, h⟩ = '\"' then
      escapeLoop (s.take i ++ '\\' :: s.drop i) (i + 2)
    else
      escapeLoop s (i + 1)
  else s
termination_by s.length - i
decreasing_by
  · simp only [List.length_append, List.length_take, List.length_cons, List.length_drop]
    omega
  · omega

/-- Functional description of the escaping loop: every embedded double quote
is prefixed with a backslash. -/
def escapeQuotes : List Char → List Char
  | [] => []
  | c :: rest =>
    if c = '\"' then '\\' :: c :: escapeQuotes rest else c :: escapeQuotes rest

/-- Escaping of one delegated-command argument (lines 600-617): run the quote
escaping loop, then append one extra backslash when the result ends in a
backslash (`if(s.back() == \x5c) s += ...`), so the closing quote added by
the caller is not escaped away. -/
def escapeArg (s : List Char) : List Char :=
  let e := escapeLoop s 0
  if e.getLast? = some '\\' then e ++ ['\\'] else e

/-- The `switch(type)` rendering of the edit kind on the helper command line
(lines 584-598), trailing space included. -/
def envOpString : ModificationType → String
  | .eEnvModification_Replace => "replace "
  | .eEnvModification_AppendPlatform => "append-platform "
  | .eEnvModification_AppendSemiColon => "append-semicolon "
  | .eEnvModification_AppendColon => "append-colon "
  | .eEnvModification_Append => "append "
  | .eEnvModification_PrependPlatform => "prepend-platform "
  | .eEnvModification_PrependSemiColon => "prepend-semicolon "
  | .eEnvModification_PrependColon => "prepend-colon "
  | .eEnvModification_Prepend => "prepend "

/-- Modelled from the spec: `trim` comes from `serialise/string_utils.h`,
which is not under `src/`; it strips leading and trailing whitespace. -/
def trim (s : String) : String :=
  ⟨((s.data.dropWhile Char.isWhitespace).reverse.dropWhile Char.isWhitespace).reverse⟩

/-- The per-edit fragment appended to `cmdWithEnv` in the delegated branch of
`Process::InjectIntoProcess` (lines 582-620): ` +env-` and the kind string,
then the escaped name and the escaped value, each wrapped in double quotes.
`name` is the already-trimmed name. -/
def envArgFragment (name value : String) (type : ModificationType) : String :=
  " +env-" ++ envOpString type ++
    "\"" ++ String.mk (escapeArg name.data) ++ "\" " ++
    "\"" ++ String.mk (escapeArg value.data) ++ "\" "

/-- The `for(;;)` loop of the delegated branch (lines 573-623): walk the env
edits in order, stop at the first edit whose trimmed name is empty, and
append one fragment per processed edit. -/
def cmdWithEnvSuffix : List EnvironmentModification → String
  | [] => ""
  | e :: rest =>
    let name := trim e.name
    if name = "" then ""
    else envArgFragment name e.value e.type ++ cmdWithEnvSuffix rest

/-- The `for(;;)` loop of the direct-injection branch (lines 680-698): the
sequence of `(name, value, type)` triples transmitted through the
`RENDERDOC_EnvModName` / `RENDERDOC_EnvModValue` / `RENDERDOC_EnvMod` remote
calls; the walk stops at the first edit whose trimmed name is empty. -/
def directEnvCalls :
    List EnvironmentModification → List (String × String × ModificationType)
  | [] => []
  | e :: rest =>
    let name := trim e.name
    if name = "" then []
    else (name, e.value, e.type) :: directEnvCalls rest

/-- Process-local state of the capture library touched by the exported boot
entry points: the control identifier and values set by `RENDERDOC_Set*`, the
staging record `tempEnvMod` (line 175), and the pending list behind
`GetEnvModifications` (lines 47-51). -/
structure LibraryState where
  targetControlIdent : Nat
  captureOpts : List Nat
  logfile : String
  tempEnvMod : EnvironmentModification
  envCallbacks : List EnvironmentModification
deriving DecidableEq, Repr

/-- Entry point `RENDERDOC_GetTargetControlIdent` (lines 157-161): when the pointer is
non-null, write the control identifier through it; a null pointer is a
complete no-op. The out-pointer is modelled as `Option Nat` carrying the
pointed-at value; the second component of the result is that cell after the
call. -/
def RENDERDOC_GetTargetControlIdent (st : LibraryState) (ident : Option Nat) :
    LibraryState × Option Nat :=
  match ident with
  | some _ => (st, some st.targetControlIdent)
  | none => (st, none)

/-- Entry point `RENDERDOC_SetCaptureOptions` (lines 163-167): copy the pointed-at
options blob into library state; null pointer is a no-op. -/
def RENDERDOC_SetCaptureOptions (st : LibraryState) (opts : Option (List Nat)) :
    LibraryState :=
  match opts with
  | some o => { st with captureOpts := o }
  | none => st

/-- Entry point `RENDERDOC_SetLogFile` (lines 169-173): set the log path; null pointer is
a no-op. -/
def RENDERDOC_SetLogFile (st : LibraryState) (log : Option String) : LibraryState :=
  match log with
  | some l => { st with logfile := l }
  | none => st

/-- Entry point `RENDERDOC_EnvModName` (lines 177-181): stage the name into
`tempEnvMod`; null pointer is a no-op. -/
def RENDERDOC_EnvModName (st : LibraryState) (name : Option String) : LibraryState :=
  match name with
  | some n => { st with tempEnvMod := { st.tempEnvMod with name := n } }
  | none => st

/-- Entry point `RENDERDOC_EnvModValue` (lines 183-187): stage the value into
`tempEnvMod`; null pointer is a no-op. -/
def RENDERDOC_EnvModValue (st : LibraryState) (value : Option String) : LibraryState :=
  match value with
  | some v => { st with tempEnvMod := { st.tempEnvMod with value := v } }
  | none => st

/-- Function `Process::RegisterEnvironmentModification` (lines 81-84): append the
record to the pending list. -/
def RegisterEnvironmentModification (st : LibraryState)
    (modif : EnvironmentModification) : LibraryState :=
  { st with envCallbacks := st.envCallbacks ++ [modif] }

/-- Entry point `RENDERDOC_EnvMod` (lines 189-196): when the pointer is non-null, copy
the kind into the staging record and append the completed record to the
pending list; a null pointer is a complete no-op. -/
def RENDERDOC_EnvMod (st : LibraryState) (type : Option ModificationType) :
    LibraryState :=
  match type with
  | some t =>
    let st' := { st with tempEnvMod := { st.tempEnvMod with type := t } }
    RegisterEnvironmentModification st' st'.tempEnvMod
  | none => st

/-- The handle-affecting actions `Process::LaunchAndInjectIntoProcess`
performs on the suspended child after `InjectIntoProcess` returns. -/
inductive HandleAction where
  | resumeThread
  | closeThreadHandle
  | closeProcessHandle
  | waitForThread
deriving DecidableEq, Repr

/-- The tail of `Process::LaunchAndInjectIntoProcess` (lines 753-770), after
a successful `RunProcess` and export check: the sequence of handle actions on
the suspended child's process/thread handles, given the value returned by
`InjectIntoProcess` and the `waitForExit` flag, paired with the function's
return value. -/
def LaunchAndInjectIntoProcess (injectRet : Nat) (waitForExit : Bool) :
    List HandleAction × Nat :=
  let acts := [HandleAction.closeProcessHandle, HandleAction.resumeThread,
               HandleAction.resumeThread]
  if injectRet = 0 then
    (acts ++ [HandleAction.closeThreadHandle], 0)
  else
    (acts ++ (if waitForExit then [HandleAction.waitForThread] else []) ++
       [HandleAction.closeThreadHandle], injectRet)


/-! ### Theorems -/

/-- C3: every call to `ApplyEnvironmentModification` leaves the pending
modification list empty, and a second call with no intervening edits changes
neither the environment nor the (empty) list. -/
theorem applyEnvMod_clears_and_idempotent (st : ProcessEnvState) :
    (ApplyEnvironmentModification st).modifications = [] ∧
    ApplyEnvironmentModification (ApplyEnvironmentModification st) =
      ApplyEnvironmentModification st :=
  ⟨rfl, rfl⟩

/-- C9: each exported capture-library boot entry point is a complete no-op on
a null pointer: the state (staging record, pending list, options, log file)
is unchanged and nothing is written through the pointer. -/
theorem renderdoc_entry_points_null_noop (st : LibraryState) :
    RENDERDOC_GetTargetControlIdent st none = (st, none) ∧
    RENDERDOC_SetCaptureOptions st none = st ∧
    RENDERDOC_SetLogFile st none = st ∧
    RENDERDOC_EnvModName st none = st ∧
    RENDERDOC_EnvModValue st none = st ∧
    RENDERDOC_EnvMod st none = st :=
  ⟨rfl, rfl, rfl, rfl, rfl, rfl⟩

/-- C6 counterexample: on success (`InjectIntoProcess` returned 1) the
suspended child's primary thread is resumed twice, not exactly once; and on
injection failure (returned 0) the thread is resumed (twice) rather than
left suspended. -/
theorem launchAndInject_resume_counterexample :
    ((LaunchAndInjectIntoProcess 1 false).1.count HandleAction.resumeThread = 2 ∧
      (2 : Nat) ≠ 1) ∧
    ((LaunchAndInjectIntoProcess 0 false).1.count HandleAction.resumeThread = 2 ∧
      (2 : Nat) ≠ 0) := by
  decide

/-- C6 amended: `LaunchAndInjectIntoProcess` issues exactly two
`ResumeThread` calls on the child's primary thread on every path (success or
failure) — the suspend count reaches zero on the first and the second is a
no-op — closes the thread handle exactly once on every path, and propagates
the `InjectIntoProcess` result as its return value. -/
theorem launchAndInject_resume_twice (injectRet : Nat) (waitForExit : Bool) :
    (LaunchAndInjectIntoProcess injectRet waitForExit).1.count
        HandleAction.resumeThread = 2 ∧
    (LaunchAndInjectIntoProcess injectRet waitForExit).1.count
        HandleAction.closeThreadHandle = 1 ∧
    (LaunchAndInjectIntoProcess injectRet waitForExit).2 = injectRet := by
  by_cases h : injectRet = 0 <;> cases waitForExit <;>
    simp [LaunchAndInjectIntoProcess, h, List.count_cons, List.count_append]

/-- C1 counterexample: processing the pending edits
`[{X, a, Replace}, {X, b, Append}]` in an environment where `X` is unset
yields `X = b`, not `X = ab`: the `Append` edit reads the existing value from
the map snapshot taken before the loop, so it does not see the `Replace`
edit's result. -/
theorem applyEnvMod_S3_counterexample :
    (ApplyEnvironmentModification
      ⟨[], [⟨"X", "a", .eEnvModification_Replace⟩,
            ⟨"X", "b", .eEnvModification_Append⟩]⟩).liveEnv = [("X", "b")] ∧
    (ApplyEnvironmentModification
      ⟨[], [⟨"X", "a", .eEnvModification_Replace⟩,
            ⟨"X", "b", .eEnvModification_Append⟩]⟩).liveEnv ≠ [("X", "ab")] := by
  decide

/-- C1 amended: for every pending edit the new value is computed from the
existing value per the edit's kind — `Replace` overwrites, `Append`/`Prepend`
concatenate unconditionally, the Colon/Semicolon/Platform variants insert
their separator only when the existing value is non-empty and otherwise
yield the bare edit value — but each edit reads the "existing value" from
the environment snapshot taken before the loop, so
`[{X, a, Replace}, {X, b, Append}]` yields `X = ab` exactly when `X`'s
pre-apply value was `a` (and `X = b` when `X` was unset). -/
theorem applyEnvMod_value_semantics :
    (∀ cur v, applyEditValue .eEnvModification_Replace cur v = v) ∧
    (∀ cur v, applyEditValue .eEnvModification_Append cur v = cur ++ v) ∧
    (∀ cur v, applyEditValue .eEnvModification_Prepend cur v = v ++ cur) ∧
    (∀ cur v, applyEditValue .eEnvModification_AppendColon cur v =
        if cur = "" then v else cur ++ ":" ++ v) ∧
    (∀ cur v, applyEditValue .eEnvModification_AppendSemiColon cur v =
        if cur = "" then v else cur ++ ";" ++ v) ∧
    (∀ cur v, applyEditValue .eEnvModification_AppendPlatform cur v =
        if cur = "" then v else cur ++ ";" ++ v) ∧
    (∀ cur v, applyEditValue .eEnvModification_PrependColon cur v =
        if cur = "" then v else v ++ ":" ++ cur) ∧
    (∀ cur v, applyEditValue .eEnvModification_PrependSemiColon cur v =
        if cur = "" then v else v ++ ";" ++ cur) ∧
    (∀ cur v, applyEditValue .eEnvModification_PrependPlatform cur v =
        if cur = "" then v else v ++ ";" ++ cur) ∧
    (ApplyEnvironmentModification
      ⟨[("X", "a")], [⟨"X", "a", .eEnvModification_Replace⟩,
            ⟨"X", "b", .eEnvModification_Append⟩]⟩).liveEnv = [("X", "ab")] := by
  refine ⟨fun cur v => rfl, fun cur v => rfl, fun cur v => rfl,
    ?_, ?_, ?_, ?_, ?_, ?_, by decide⟩ <;>
  · intro cur v
    by_cases h : cur = "" <;>
      simp [applyEditValue, h, String.isEmpty_iff, String.append_assoc]

/-- C2: an edit's name is looked up against the lowercase-keyed map; on a hit
the edit starts from the existing value and the name passed to
`SetEnvironmentVariableW` is the lowercased lookup key; on a miss the edit's
original casing is used. `SetEnvironmentVariableW` on a case-insensitive hit
updates the existing variable in place (same set of variable names, so no new
variable appears). Concretely, with `PATH=foo` live, the edit
`{path, AppendSemiColon, bar}` leaves the single live variable `PATH` holding
`foo;bar`. -/
theorem applyEnvMod_case_insensitive_lookup :
    (∀ currentEnv live m v, mapFind (strlower m.name) currentEnv = some v →
      applyOneModification currentEnv live m =
        SetEnvironmentVariableW (strlower m.name)
          (applyEditValue m.type v m.value) live) ∧
    (∀ currentEnv live m, mapFind (strlower m.name) currentEnv = none →
      applyOneModification currentEnv live m =
        SetEnvironmentVariableW m.name (applyEditValue m.type "" m.value) live) ∧
    (∀ name value env, (∃ p ∈ env, strlower p.1 = strlower name) →
      (SetEnvironmentVariableW name value env).map Prod.fst = env.map Prod.fst) ∧
    ApplyEnvironmentModification
      ⟨[("PATH", "foo")], [⟨"path", "bar", .eEnvModification_AppendSemiColon⟩]⟩ =
      ⟨[("PATH", "foo;bar")], []⟩ := by
  refine ⟨?_, ?_, ?_, by decide⟩
  · intro currentEnv live m v h
    simp [applyOneModification, h]
  · intro currentEnv live m h
    simp [applyOneModification, h]
  · intro name value env
    induction env with
    | nil => rintro ⟨p, hp, -⟩; exact absurd hp (List.not_mem_nil p)
    | cons nv rest ih =>
      rintro ⟨p, hp, hlow⟩
      by_cases h : strlower nv.1 = strlower name
      · simp [SetEnvironmentVariableW, h]
      · rcases List.mem_cons.mp hp with rfl | hmem
        · exact absurd hlow h
        · simpa [SetEnvironmentVariableW, h] using ih ⟨p, hmem, hlow⟩

/-- Witness for `applyEnvMod_case_insensitive_lookup`: the hit clause, the
miss clause and the casing-preservation clause each applied at a concrete
input. -/
theorem applyEnvMod_case_insensitive_lookup_witness :
    applyOneModification [("path", "foo")] [("PATH", "foo")]
        ⟨"Path", "bar", .eEnvModification_AppendSemiColon⟩ =
      SetEnvironmentVariableW "path"
        (applyEditValue .eEnvModification_AppendSemiColon "foo" "bar")
        [("PATH", "foo")] ∧
    applyOneModification [] [] ⟨"FOO", "1", .eEnvModification_AppendColon⟩ =
      SetEnvironmentVariableW "FOO"
        (applyEditValue .eEnvModification_AppendColon "" "1") [] ∧
    (SetEnvironmentVariableW "path" "x" [("PATH", "foo")]).map Prod.fst =
      [("PATH", "foo")].map Prod.fst :=
  ⟨applyEnvMod_case_insensitive_lookup.1 [("path", "foo")] [("PATH", "foo")]
      ⟨"Path", "bar", .eEnvModification_AppendSemiColon⟩ "foo" (by decide),
   applyEnvMod_case_insensitive_lookup.2.1 [] []
      ⟨"FOO", "1", .eEnvModification_AppendColon⟩ (by decide),
   applyEnvMod_case_insensitive_lookup.2.2.1 "path" "x" [("PATH", "foo")]
      ⟨("PATH", "foo"), by decide, by decide⟩⟩

set_option maxRecDepth 10000 in
/-- Per-byte round trip of the nibble encoding: decoding the two characters
emitted for a byte recovers the byte. -/
theorem byteEncode_decode (b : Nat) (hb : b < 256) :
    ((Char.ofNat ('a'.toNat + ((b >>> 4) &&& 0xf))).toNat - 'a'.toNat) * 16 +
      ((Char.ofNat ('a'.toNat + (b &&& 0xf))).toNat - 'a'.toNat) = b := by
  revert hb
  revert b
  decide

/-- The serialisation `foldl` with an arbitrary accumulator flattens to the
concatenation of the per-byte character pairs. -/
theorem captureOptionsEncode_append (blob : List Nat) (acc : List Char) :
    blob.foldl (fun optstr b => optstr ++ byteEncodeChars b) acc =
      acc ++ (blob.map byteEncodeChars).flatten := by
  induction blob generalizing acc with
  | nil => simp
  | cons b rest ih => simp [ih, List.append_assoc]

/-- Rewriting `captureOptionsEncode` in flattened form. -/
theorem captureOptionsEncode_eq_flatten (blob : List Nat) :
    captureOptionsEncode blob = (blob.map byteEncodeChars).flatten := by
  simpa using captureOptionsEncode_append blob []

/-- C4: the capture-options blob is encoded two ASCII characters per byte,
high nibble then low nibble, each nibble `n` as `'a' + n`; the bytes
`0x00 0xFF 0x10` encode to `aappba`, and decoding inverts encoding on every
byte blob (the encoding is lossless). -/
theorem captureOptions_hex_encoding :
    String.mk (captureOptionsEncode [0x00, 0xFF, 0x10]) = "aappba" ∧
    ∀ blob : List Nat, (∀ b ∈ blob, b < 256) →
      captureOptionsDecode (captureOptionsEncode blob) = blob := by
  refine ⟨by decide, ?_⟩
  intro blob h
  induction blob with
  | nil => rfl
  | cons b rest ih =>
    have hb : b < 256 := h b (List.mem_cons_self b rest)
    have htail := ih fun x hx => h x (List.mem_cons_of_mem b hx)
    rw [captureOptionsEncode_eq_flatten] at htail ⊢
    simp only [List.map_cons, List.flatten_cons]
    rw [byteEncodeChars]
    show captureOptionsDecode (_ :: _ :: _) = _
    rw [captureOptionsDecode]
    simp only [List.append_eq, List.nil_append]
    rw [htail, byteEncode_decode b hb]

/-- Witness for `captureOptions_hex_encoding`: the round trip evaluated on
the blob `0x00 0xFF 0x10`. -/
theorem captureOptions_hex_encoding_witness :
    captureOptionsDecode (captureOptionsEncode [0x00, 0xFF, 0x10]) =
      [0x00, 0xFF, 0x10] :=
  captureOptions_hex_encoding.2 [0x00, 0xFF, 0x10] (by decide)

/-- Predicate `containsSub` decides the substring (infix) relation, as `wcsstr` does. -/
theorem containsSub_iff_substring (hay needle : List Char) :
    containsSub hay needle = true ↔ needle <:+: hay := by
  induction hay with
  | nil => simp [containsSub, List.isEmpty_iff, List.infix_nil]
  | cons a rest ih =>
    simp [containsSub, List.infix_cons_iff, List.isPrefixOf_iff_prefix, ih]

/-- The module scan returns the base address of the first matching snapshot
entry when all base addresses are non-zero, and 0 when nothing matches. -/
theorem moduleScan_eq_first_match (libName : String) (modules : List ModuleEntry)
    (hnz : ∀ me ∈ modules, me.modBaseAddr ≠ 0) :
    moduleScan libName modules =
      match modules.find? (fun me =>
          containsSub (strlower me.szModule).data libName.data) with
      | some me => me.modBaseAddr
      | none => 0 := by
  induction modules with
  | nil => rfl
  | cons me rest ih =>
    have hme := hnz me (List.mem_cons_self me rest)
    have hrest := ih fun x hx => hnz x (List.mem_cons_of_mem me hx)
    by_cases h : containsSub (strlower me.szModule).data libName.data = true
    · simp [moduleScan, List.find?_cons, h, hme]
    · simp only [Bool.not_eq_true] at h
      simp [moduleScan, List.find?_cons, h, hrest]

/-- C5: `FindRemoteDLL` lowercases the query and each snapshot module name
and matches by substring; with a successful snapshot it returns the base
load address of the first matching module (module base addresses being
non-zero), or 0 when no module matches; querying `lib.dll` against a
snapshot holding only `LIB.DLL` at base `0x10000000` returns `0x10000000`. -/
theorem findRemoteDLL_substring_match :
    (∀ hay needle : List Char, containsSub hay needle = true ↔ needle <:+: hay) ∧
    (∀ (modules : List ModuleEntry) (libName : String),
      (∀ me ∈ modules, me.modBaseAddr ≠ 0) →
      FindRemoteDLL (fun _ => .ok modules) libName =
        match modules.find? (fun me =>
            containsSub (strlower me.szModule).data (strlower libName).data) with
        | some me => me.modBaseAddr
        | none => 0) ∧
    FindRemoteDLL (fun _ => .ok [⟨"LIB.DLL", 0x10000000⟩]) "lib.dll" =
      0x10000000 := by
  refine ⟨containsSub_iff_substring, ?_, by decide⟩
  intro modules libName hnz
  show (match (snapshotRetry (fun _ => .ok modules) 0 9).1 with
        | .error _ => 0
        | .ok mods => moduleScan (strlower libName) mods) = _
  rw [snapshotRetry]
  exact moduleScan_eq_first_match (strlower libName) modules hnz

/-- Witness for `findRemoteDLL_substring_match`: the first-match clause
applied to a concrete snapshot, for a hit and for a miss. -/
theorem findRemoteDLL_substring_match_witness :
    FindRemoteDLL (fun _ => .ok [⟨"notme.dll", 0x20⟩, ⟨"LIB.DLL", 0x10⟩])
        "lib.dll" = 0x10 ∧
    FindRemoteDLL (fun _ => .ok [⟨"LIB.DLL", 0x10⟩]) "absent.dll" = 0 := by
  constructor
  · rw [findRemoteDLL_substring_match.2.1
      [⟨"notme.dll", 0x20⟩, ⟨"LIB.DLL", 0x10⟩] "lib.dll" (by decide)]
    decide
  · rw [findRemoteDLL_substring_match.2.1 [⟨"LIB.DLL", 0x10⟩] "absent.dll"
      (by decide)]
    decide

/-- Unfolding: a `ERROR_BAD_LENGTH` failure with retries left makes the loop
try again at the next attempt index. -/
theorem snapshotRetry_step (attempt : Nat → Except Nat (List ModuleEntry))
    (i r : Nat) (h : attempt i = .error ERROR_BAD_LENGTH) :
    snapshotRetry attempt i (r + 1) = snapshotRetry attempt (i + 1) r := by
  rw [snapshotRetry.eq_def]
  simp only []
  rw [h]
  simp

/-- Unfolding: any other error ends the loop at once with that error. -/
theorem snapshotRetry_stop (attempt : Nat → Except Nat (List ModuleEntry))
    (i r err : Nat) (h : attempt i = .error err) (hne : err ≠ ERROR_BAD_LENGTH) :
    snapshotRetry attempt i r = (.error err, i + 1) := by
  rw [snapshotRetry.eq_def]
  simp only []
  rw [h]
  cases r <;> simp [hne]

/-- Unfolding: a successful snapshot ends the loop at once. -/
theorem snapshotRetry_ok (attempt : Nat → Except Nat (List ModuleEntry))
    (i r : Nat) (mods : List ModuleEntry) (h : attempt i = .ok mods) :
    snapshotRetry attempt i r = (.ok mods, i + 1) := by
  rw [snapshotRetry.eq_def]
  simp only []
  rw [h]

/-- Unfolding: with no retries left the loop ends on whatever error the last
attempt reported, `ERROR_BAD_LENGTH` included. -/
theorem snapshotRetry_last (attempt : Nat → Except Nat (List ModuleEntry))
    (i err : Nat) (h : attempt i = .error err) :
    snapshotRetry attempt i 0 = (.error err, i + 1) := by
  rw [snapshotRetry.eq_def]
  simp only []
  rw [h]

/-- When every attempt in the window fails with `ERROR_BAD_LENGTH`, the retry
loop consumes all its retries and makes `retriesLeft + 1` attempts, ending on
the transient error. -/
theorem snapshotRetry_all_bad_length (attempt : Nat → Except Nat (List ModuleEntry)) :
    ∀ r i : Nat,
      (∀ j, i ≤ j → j ≤ i + r → attempt j = .error ERROR_BAD_LENGTH) →
      snapshotRetry attempt i r = (.error ERROR_BAD_LENGTH, i + r + 1) := by
  intro r
  induction r with
  | zero =>
    intro i h
    exact snapshotRetry_last attempt i ERROR_BAD_LENGTH (h i le_rfl (by omega))
  | succ r ih =>
    intro i h
    rw [snapshotRetry_step attempt i r (h i le_rfl (by omega))]
    rw [ih (i + 1) fun j hj hj2 => h j (by omega) (by omega)]
    simp only [Prod.mk.injEq]
    exact ⟨trivial, by omega⟩

/-- The retry loop never makes more than `retriesLeft + 1` attempts. -/
theorem snapshotRetry_attempts_le (attempt : Nat → Except Nat (List ModuleEntry)) :
    ∀ r i : Nat, (snapshotRetry attempt i r).2 ≤ i + r + 1 := by
  intro r
  induction r with
  | zero =>
    intro i
    rcases h : attempt i with err | mods
    · rw [snapshotRetry_last attempt i err h]
    · rw [snapshotRetry_ok attempt i 0 mods h]
  | succ r ih =>
    intro i
    rcases h : attempt i with err | mods
    · by_cases he : err = ERROR_BAD_LENGTH
      · subst he
        rw [snapshotRetry_step attempt i r h]
        have := ih (i + 1)
        omega
      · rw [snapshotRetry_stop attempt i (r + 1) err h he]
        simp
    · rw [snapshotRetry_ok attempt i (r + 1) mods h]
      simp

/-- C7: the snapshot loop retries only on `ERROR_BAD_LENGTH` — any other
error ends the loop after that single attempt — at most nine retries follow
the first attempt (never more than ten attempts, and exactly ten when the
transient error persists), and whenever the snapshot is still unavailable
after the loop, `FindRemoteDLL` returns 0. -/
theorem findRemoteDLL_retry_policy :
    (∀ (attempt : Nat → Except Nat (List ModuleEntry)) (err : Nat),
      attempt 0 = .error err → err ≠ ERROR_BAD_LENGTH →
      snapshotRetry attempt 0 9 = (.error err, 1)) ∧
    (∀ attempt : Nat → Except Nat (List ModuleEntry),
      (∀ j, j ≤ 9 → attempt j = .error ERROR_BAD_LENGTH) →
      snapshotRetry attempt 0 9 = (.error ERROR_BAD_LENGTH, 10)) ∧
    (∀ attempt : Nat → Except Nat (List ModuleEntry),
      (snapshotRetry attempt 0 9).2 ≤ 10) ∧
    (∀ (attempt : Nat → Except Nat (List ModuleEntry)) (libName : String)
        (err : Nat),
      (snapshotRetry attempt 0 9).1 = .error err →
      FindRemoteDLL attempt libName = 0) := by
  refine ⟨?_, ?_, ?_, ?_⟩
  · intro attempt err h hne
    exact snapshotRetry_stop attempt 0 9 err h hne
  · intro attempt h
    simpa using snapshotRetry_all_bad_length attempt 9 0
      fun j hj hj2 => h j (by omega)
  · intro attempt
    simpa using snapshotRetry_attempts_le attempt 9 0
  · intro attempt libName err h
    simp [FindRemoteDLL, h]

/-- Witness for `findRemoteDLL_retry_policy`: a permanent unrelated error
stops the loop after one attempt, a persistent `ERROR_BAD_LENGTH` exhausts
all ten attempts, and either way `FindRemoteDLL` returns 0. -/
theorem findRemoteDLL_retry_policy_witness :
    snapshotRetry (fun _ => .error 5) 0 9 = (.error 5, 1) ∧
    snapshotRetry (fun _ => .error ERROR_BAD_LENGTH) 0 9 =
      (.error ERROR_BAD_LENGTH, 10) ∧
    (snapshotRetry (fun _ => .error 5) 0 9).2 ≤ 10 ∧
    FindRemoteDLL (fun _ => .error 5) "lib.dll" = 0 :=
  ⟨findRemoteDLL_retry_policy.1 (fun _ => .error 5) 5 rfl (by decide),
   findRemoteDLL_retry_policy.2.1 (fun _ => .error ERROR_BAD_LENGTH)
     (fun _ _ => rfl),
   findRemoteDLL_retry_policy.2.2.1 (fun _ => .error 5),
   findRemoteDLL_retry_policy.2.2.2 (fun _ => .error 5) "lib.dll" 5
     (by rw [findRemoteDLL_retry_policy.1 (fun _ => .error 5) 5 rfl (by decide)])⟩

/-- The in-place escaping loop, started at index `pre.length` of `pre ++ suf`,
leaves `pre` untouched and escapes `suf` functionally. -/
theorem escapeLoop_spec (suf : List Char) :
    ∀ pre : List Char, escapeLoop (pre ++ suf) pre.length = pre ++ escapeQuotes suf := by
  induction suf with
  | nil =>
    intro pre
    rw [escapeLoop]
    simp [escapeQuotes]
  | cons c rest ih =>
    intro pre
    rw [escapeLoop]
    have hlt : pre.length < (pre ++ c :: rest).length := by simp
    rw [dif_pos hlt]
    have hget : (pre ++ c :: rest).get ⟨pre.length, hlt⟩ = c := by
      simp [List.getElem_append_right]
    rw [hget]
    by_cases hc : c = '\"'
    · rw [if_pos hc]
      rw [List.take_left pre (c :: rest), List.drop_left pre (c :: rest)]
      have h3 : pre ++ c :: rest = (pre ++ [c]) ++ rest := by simp
      have h2 : pre.length + 2 = (pre ++ ['\\', c]).length := by simp
      have h4 : pre ++ '\\' :: c :: rest = (pre ++ ['\\', c]) ++ rest := by simp
      rw [h4, h2, ih (pre ++ ['\\', c])]
      subst hc
      simp [escapeQuotes]
    · rw [if_neg hc]
      have h2 : pre.length + 1 = (pre ++ [c]).length := by simp
      have h3 : pre ++ c :: rest = (pre ++ [c]) ++ rest := by simp
      rw [h3, h2, ih (pre ++ [c])]
      simp [escapeQuotes, hc]

/-- The escaping loop started at index 0 equals the functional escaping. -/
theorem escapeLoop_eq_escapeQuotes (s : List Char) :
    escapeLoop s 0 = escapeQuotes s := by
  simpa using escapeLoop_spec s []

/-- Unfolding `escapeQuotes` in append form on a cons cell. -/
theorem escapeQuotes_cons (c : Char) (l : List Char) :
    escapeQuotes (c :: l) =
      (if c = '\"' then ['\\', c] else [c]) ++ escapeQuotes l := by
  by_cases hc : c = '\"' <;> simp [escapeQuotes, hc]

/-- Quote escaping never changes the last character of the string. -/
theorem escapeQuotes_getLast (s : List Char) :
    (escapeQuotes s).getLast? = s.getLast? := by
  induction s with
  | nil => rfl
  | cons c rest ih =>
    rw [escapeQuotes_cons]
    cases rest with
    | nil => by_cases hc : c = '\"' <;> simp [escapeQuotes, hc]
    | cons d rest' =>
      have hne : escapeQuotes (d :: rest') ≠ [] := by
        rw [escapeQuotes_cons]
        by_cases hd : d = '\"' <;> simp [hd]
      rw [List.getLast?_append_of_ne_nil _ hne, ih, List.getLast?_cons_cons]

/-- Function `escapeArg` in functional form: functional quote escaping, then one
extra backslash exactly when the original string ends in a backslash. -/
theorem escapeArg_spec (s : List Char) :
    escapeArg s =
      escapeQuotes s ++ if s.getLast? = some '\\' then ['\\'] else [] := by
  rw [escapeArg, escapeLoop_eq_escapeQuotes, escapeQuotes_getLast]
  by_cases h : s.getLast? = some '\\' <;> simp [h]

/-- C8: on the delegated (32-bit helper) path each env edit is appended as
`+env-<kind>` with the kind rendered as its lower-kebab-cased variant name,
and each name and value is escaped by prefixing every embedded double quote
with a backslash and appending one extra backslash when the last character
is a backslash, the whole argument then being wrapped in double quotes —
shown concretely on an edit whose value is `a"b\`. -/
theorem injectDelegated_env_arg_encoding :
    (envOpString .eEnvModification_Replace = "replace " ∧
     envOpString .eEnvModification_Append = "append " ∧
     envOpString .eEnvModification_Prepend = "prepend " ∧
     envOpString .eEnvModification_AppendColon = "append-colon " ∧
     envOpString .eEnvModification_PrependColon = "prepend-colon " ∧
     envOpString .eEnvModification_AppendSemiColon = "append-semicolon " ∧
     envOpString .eEnvModification_PrependSemiColon = "prepend-semicolon " ∧
     envOpString .eEnvModification_AppendPlatform = "append-platform " ∧
     envOpString .eEnvModification_PrependPlatform = "prepend-platform ") ∧
    (∀ s : List Char, escapeLoop s 0 = escapeQuotes s) ∧
    (∀ s : List Char, escapeArg s =
        escapeQuotes s ++ if s.getLast? = some '\\' then ['\\'] else []) ∧
    cmdWithEnvSuffix [⟨"N", "a\"b\\", .eEnvModification_AppendSemiColon⟩] =
      " +env-append-semicolon \"N\" \"a\\\"b\\\\\" " := by
  refine ⟨⟨rfl, rfl, rfl, rfl, rfl, rfl, rfl, rfl, rfl⟩,
    escapeLoop_eq_escapeQuotes, escapeArg_spec, ?_⟩
  have hN := escapeArg_spec "N".data
  have hV := escapeArg_spec "a\"b\\".data
  rw [cmdWithEnvSuffix]
  rw [show trim "N" = "N" from rfl]
  rw [if_neg (by decide), envArgFragment, hN, hV, cmdWithEnvSuffix]
  decide

/-- C10: both injection branches consume the env-edit array strictly in
order and stop at the first entry whose trimmed name is empty: the triples
sent by the direct branch and the helper-command suffix built by the
delegated branch are exactly the images of the longest prefix of edits with
non-empty trimmed names, and each processed entry contributes its trimmed
name, not the original. -/
theorem injectEnv_prefix_order (edits : List EnvironmentModification) :
    directEnvCalls edits =
      (edits.takeWhile fun e => !(trim e.name == "")).map
        (fun e => (trim e.name, e.value, e.type)) ∧
    cmdWithEnvSuffix edits =
      ((edits.takeWhile fun e => !(trim e.name == "")).map
        (fun e => envArgFragment (trim e.name) e.value e.type)).foldr
          (fun a b => a ++ b) "" := by
  induction edits with
  | nil => exact ⟨rfl, rfl⟩
  | cons e rest ih =>
    by_cases h : trim e.name = ""
    · constructor
      · rw [directEnvCalls]
        simp [h, List.takeWhile_cons]
      · rw [cmdWithEnvSuffix]
        simp [h, List.takeWhile_cons]
    · constructor
      · rw [directEnvCalls]
        simp [h, List.takeWhile_cons, ih.1]
      · rw [cmdWithEnvSuffix]
        simp [h, List.takeWhile_cons, ih.2]
